import Mathlib

/-!
Verification of the job-management core of the Any-Format-To-MP4 converter.

The repository holds three near-duplicate PyQt batch converters:
  src/universal_to_mp4_gui/universal_to_mp4_gui.py  (the "universal" variant)
  src/avi_to_mp4/avi_to_mp4_gui.py                  (the "avi" variant)
  src/mkv_to_mp4_gui/mkv_to_mp4_gui.py              (the "mkv" variant)

This file shallowly embeds the parts of those programs the claims are about:
the `ConvertWorker.run` loop (duration probe, ffmpeg stderr streaming,
progress throttling, cancellation and exit handling), and the `MainWindow`
job registry (`self.items`), thread pool accounting, folder-watch toggling,
per-item cancel/remove, and the overall-progress aggregator.

Percent values are modelled as rationals; the external world of one worker
run (probe result, spawn outcome, the stderr lines with their parsed
`time=` fields, the point at which the cancel flag becomes visible, stream
exceptions, and the exit code) is collected in a `RunEnv` record, and a
worker run is a pure function from `RunEnv` to the list of Qt signals it
emits (or, for the mkv variant whose streaming loop is not wrapped in a
try/except, an `Except` that records an escaped exception).
-/

namespace Conv

/-! ## Paths and extensions

`universal_to_mp4_gui._add_file` checks `os.path.splitext(path)[1].lower()`
against `INPUT_EXTS`; `mkv_to_mp4_gui.add_file` checks
`path.lower().endswith(".mkv")`.  `os.path.abspath` depends on the process
working directory, so normalization is a parameter of the registry
operations below. -/

/-- The `INPUT_EXTS` set of `universal_to_mp4_gui.py` (line 29). -/
def INPUT_EXTS : List String :=
  [".avi", ".mkv", ".mov", ".wmv", ".flv", ".mts", ".mpg", ".mpeg", ".mp4",
   ".m4v", ".3gp", ".3g2", ".ts", ".webm", ".vob"]

/-- ASCII lowering, modelling `str.lower()` on extension strings. -/
def lowerStr (s : String) : String :=
  ⟨s.data.map Char.toLower⟩

/-- Extension of a basename, modelling `os.path.splitext(b)[1]` for a
basename `b` (posixpath rule: the extension starts at the last dot, provided
some earlier character of the basename is not a dot). -/
def basenameExt (b : List Char) : List Char :=
  match (b.reverse.span (fun c => c ≠ '.')) with
  | (_, []) => []
  | (revExt, _ :: before) =>
      if before.any (fun c => c ≠ '.') then ('.' :: revExt.reverse) else []

/-- The characters after the last `/`, modelling `os.path.basename` for a
posix path (the suffix `os.path.splitext` inspects). -/
def basenameChars (cs : List Char) : List Char :=
  cs.foldl (fun acc c => if c = '/' then [] else acc ++ [c]) []

/-- Modelling `os.path.splitext(p)[1]` (posix separator). -/
def splitextExt (p : String) : String :=
  ⟨basenameExt (basenameChars p.data)⟩

/-- The extension filter of `universal_to_mp4_gui._add_file` (lines 307-310):
`os.path.splitext(path)[1].lower() in INPUT_EXTS`. -/
def extAllowed (p : String) : Bool :=
  INPUT_EXTS.contains (lowerStr (splitextExt p))

/-- The extension filter of `mkv_to_mp4_gui.add_file` (line 299):
`path.lower().endswith(".mkv")`. -/
def mkvAllowed (p : String) : Bool :=
  List.isSuffixOf ".mkv".data (lowerStr p).data

/-! ## Worker: signals and run environment -/

/-- One Qt signal emission of `WorkerSignals`: `started`, `progress(float)`,
`log(str)` or `finished(bool, str)`. -/
inductive Event where
  | started : Event
  | progress (p : ℚ) : Event
  | log (s : String) : Event
  | finished (ok : Bool) (out : String) : Event
deriving DecidableEq

/-- A `time=H:M:S.frac` match from the `time_re` regex
`time=(\d+:\d+:\d+\.\d+)`: hours and minutes are digit strings (naturals,
hours may exceed 24) and the seconds field is a nonnegative decimal. -/
structure TimeStamp where
  h : ℕ
  m : ℕ
  s : ℚ
  s_nonneg : 0 ≤ s

/-- `ConvertWorker._time_to_seconds`: `int(h)*3600 + int(m)*60 + float(s)`.
The regex guarantees the split succeeds, so the `except: return 0.0`
fallback is unreachable on matched text. -/
def TimeStamp.seconds (t : TimeStamp) : ℚ :=
  (t.h : ℚ) * 3600 + (t.m : ℚ) * 60 + t.s

/-- One stderr line after `line.strip()`: its text and the result of
`time_re.search` on it. -/
structure Line where
  text : String
  time : Option TimeStamp

/-- Outcome of `subprocess.Popen`: success, `FileNotFoundError`, or some
other exception. -/
inductive SpawnResult where
  | ok : SpawnResult
  | notFound : SpawnResult
  | failed : SpawnResult
deriving DecidableEq

/-- The external world of one `ConvertWorker.run` call.
`duration` is the ffprobe probe result (`none` models every failure path of
`_get_duration`, which returns `None`); `lines` are the stripped stderr
lines in order; `cancelFrom = some k` means the cooperative cancel flag set
by `kill()` reads true from the loop check before the `k`-th line onward
(`none`: never set while lines are read); `streamExn` means an exception is
raised after the lines are consumed (during iteration tail or
`proc.wait()`); `rc` is the process return code; `output` is the worker's
`output_path`. -/
structure RunEnv where
  duration : Option ℚ
  spawn : SpawnResult
  lines : List Line
  cancelFrom : Option ℕ
  streamExn : Bool
  rc : Int
  output : String

/-- Whether the cancel flag reads true at the check before line `i`. -/
def cancelAt (c : Option ℕ) (i : ℕ) : Bool :=
  match c with
  | none => false
  | some k => decide (k ≤ i)

/-! ## Worker: the streaming loop

The per-line progress decision of `universal_to_mp4_gui.ConvertWorker.run`
(lines 114-120):

    m = time_re.search(s)
    if m and duration:
        secs = self._time_to_seconds(m.group(1))
        percent = min(100.0, (secs / duration) * 100.0)
        if percent - last >= 0.5 or percent == 100.0:
            last = percent
            self.signals.progress.emit(percent)

Note `if m and duration` is Python truthiness: a probe result of `0.0` is
falsy, so the division is skipped for an absent or zero duration. -/

/-- The universal variant's per-line progress decision: `some p` when a
progress event with value `p` is emitted (and `last` becomes `p`). -/
def stepPercent (dur : Option ℚ) (last : ℚ) (l : Line) : Option ℚ :=
  match l.time, dur with
  | some t, some d =>
      if d = 0 then none
      else
        let percent := min 100 (t.seconds / d * 100)
        if 1/2 ≤ percent - last ∨ percent = 100 then some percent else none
  | _, _ => none

/-- The mkv variant's per-line progress decision
(`mkv_to_mp4_gui.ConvertWorker.run`, lines 106-112): same computation but
the emission guard is only `percent - last_percent >= 0.5`, with no
`percent == 100` disjunct. -/
def mkvStepPercent (dur : Option ℚ) (last : ℚ) (l : Line) : Option ℚ :=
  match l.time, dur with
  | some t, some d =>
      if d = 0 then none
      else
        let percent := min 100 (t.seconds / d * 100)
        if 1/2 ≤ percent - last then some percent else none
  | _, _ => none

/-- The avi variant's per-line progress decision
(`avi_to_mp4_gui.ConvertWorker.run`, lines 118-127): the guard is
`if duration and duration > 0`, then
`percent - last_percent >= 0.5 or percent == 100.0`. -/
def aviStepPercent (dur : Option ℚ) (last : ℚ) (l : Line) : Option ℚ :=
  match l.time, dur with
  | some t, some d =>
      if d = 0 ∨ ¬ 0 < d then none
      else
        let percent := min 100 (t.seconds / d * 100)
        if 1/2 ≤ percent - last ∨ percent = 100 then some percent else none
  | _, _ => none

/-- Result of the streaming loop: the events it emitted and whether it
returned early through the cancellation branch. -/
structure LoopOut where
  events : List Event
  cancelled : Bool
deriving DecidableEq

/-- The `for line in proc.stderr` loop of the universal variant (lines
101-120): check the cancel flag, forward the nonempty stripped line as a
log event, then apply the progress decision.  On observed cancellation the
code kills the process, logs, emits `finished(False, "")` and returns. -/
def uLoop (c : Option ℕ) (dur : Option ℚ) :
    List Line → ℕ → ℚ → LoopOut
  | [], _, _ => ⟨[], false⟩
  | l :: ls, i, last =>
      if cancelAt c i then
        ⟨[Event.log "Conversion cancelled.", Event.finished false ""], true⟩
      else
        let logEv : List Event := if l.text = "" then [] else [Event.log l.text]
        match stepPercent dur last l with
        | some p =>
            let r := uLoop c dur ls (i + 1) p
            ⟨logEv ++ Event.progress p :: r.events, r.cancelled⟩
        | none =>
            let r := uLoop c dur ls (i + 1) last
            ⟨logEv ++ r.events, r.cancelled⟩

/-- The streaming loop of the mkv variant (lines 95-112): as `uLoop` but the
cancellation branch emits only `finished(False, "")` (no log) and the
progress decision lacks the `== 100` disjunct. -/
def mkvLoop (c : Option ℕ) (dur : Option ℚ) :
    List Line → ℕ → ℚ → LoopOut
  | [], _, _ => ⟨[], false⟩
  | l :: ls, i, last =>
      if cancelAt c i then
        ⟨[Event.finished false ""], true⟩
      else
        let logEv : List Event := if l.text = "" then [] else [Event.log l.text]
        match mkvStepPercent dur last l with
        | some p =>
            let r := mkvLoop c dur ls (i + 1) p
            ⟨logEv ++ Event.progress p :: r.events, r.cancelled⟩
        | none =>
            let r := mkvLoop c dur ls (i + 1) last
            ⟨logEv ++ r.events, r.cancelled⟩

/-- The streaming loop of the avi variant (lines 104-127): the cancellation
branch logs "Cancelled." then emits `finished(False, "")`. -/
def aviLoop (c : Option ℕ) (dur : Option ℚ) :
    List Line → ℕ → ℚ → LoopOut
  | [], _, _ => ⟨[], false⟩
  | l :: ls, i, last =>
      if cancelAt c i then
        ⟨[Event.log "Cancelled.", Event.finished false ""], true⟩
      else
        let logEv : List Event := if l.text = "" then [] else [Event.log l.text]
        match aviStepPercent dur last l with
        | some p =>
            let r := aviLoop c dur ls (i + 1) p
            ⟨logEv ++ Event.progress p :: r.events, r.cancelled⟩
        | none =>
            let r := aviLoop c dur ls (i + 1) last
            ⟨logEv ++ r.events, r.cancelled⟩

/-! ## Worker: full runs -/

/-- Events of the universal `run` before the spawn: `started`, then the
duration warning when `_get_duration` returned `None` (line 82: the message
is emitted only on `duration is None`, not on `0.0`). -/
def uPre (env : RunEnv) : List Event :=
  Event.started ::
    (match env.duration with
     | none => [Event.log "Could not read duration (ffprobe). Progress will be approximate."]
     | some _ => [])

/-- `universal_to_mp4_gui.ConvertWorker.run` (lines 79-134) as a function
from the run environment to the emitted signal trace.  Every exception path
is caught inside `run` (lines 89-96 around `Popen`, lines 101-134 around the
loop and `wait`), so the result is a plain event list.  Interpolated
message texts are modelled by fixed placeholder strings. -/
def uRun (env : RunEnv) : List Event :=
  match env.spawn with
  | SpawnResult.notFound =>
      uPre env ++ [Event.log "ffmpeg not found. Set path or bundle ffmpeg with the app.",
                   Event.finished false ""]
  | SpawnResult.failed =>
      uPre env ++ [Event.log "Failed to start ffmpeg: <exception>",
                   Event.finished false ""]
  | SpawnResult.ok =>
      let r := uLoop env.cancelFrom env.duration env.lines 0 0
      if r.cancelled then uPre env ++ r.events
      else if env.streamExn then
        uPre env ++ r.events ++ [Event.log "Error: <exception>", Event.finished false ""]
      else if env.rc = 0 then
        uPre env ++ r.events ++ [Event.progress 100, Event.finished true env.output]
      else
        uPre env ++ r.events ++ [Event.log "ffmpeg exited with code <rc>",
                                 Event.finished false ""]

/-- Events of the avi `run` before the spawn (lines 80-84). -/
def aviPre (env : RunEnv) : List Event :=
  Event.started ::
    (match env.duration with
     | none => [Event.log "Could not determine duration (ffprobe missing or failed). Progress may be unavailable."]
     | some _ => [])

/-- `avi_to_mp4_gui.ConvertWorker.run` (lines 79-143): like the universal
variant, every exception path is caught (`FileNotFoundError` and generic
`Exception` at `Popen`, and a `try/except Exception` around the loop and
`wait`). -/
def aviRun (env : RunEnv) : List Event :=
  match env.spawn with
  | SpawnResult.notFound =>
      aviPre env ++ [Event.log "ffmpeg executable not found. Please ensure ffmpeg is installed and in PATH or set the path in settings.",
                     Event.finished false ""]
  | SpawnResult.failed =>
      aviPre env ++ [Event.log "Failed to start ffmpeg: <exception>",
                     Event.finished false ""]
  | SpawnResult.ok =>
      let r := aviLoop env.cancelFrom env.duration env.lines 0 0
      if r.cancelled then aviPre env ++ r.events
      else if env.streamExn then
        aviPre env ++ r.events ++ [Event.log "Error during conversion: <exception>",
                                   Event.finished false ""]
      else if env.rc = 0 then
        aviPre env ++ r.events ++ [Event.progress 100, Event.finished true env.output]
      else
        aviPre env ++ r.events ++ [Event.log "ffmpeg exited with code <rc>",
                                   Event.finished false ""]

/-- Events of the mkv `run` before the spawn (lines 64-68). -/
def mkvPre (env : RunEnv) : List Event :=
  Event.started ::
    (match env.duration with
     | none => [Event.log "Could not read duration (ffprobe error). Progress may be inaccurate."]
     | some _ => [])

/-- `mkv_to_mp4_gui.ConvertWorker.run` (lines 63-120).  Only
`FileNotFoundError` is caught at `Popen` (line 82); a generic spawn
exception escapes, and the streaming loop and `process.wait()` are not
inside any `try`, so a stream exception escapes too.  An escaped exception
is `Except.error ()`.  On `rc != 0` the mkv variant emits no exit-code log,
only `finished(False, "")` (line 120). -/
def mkvRun (env : RunEnv) : Except Unit (List Event) :=
  match env.spawn with
  | SpawnResult.notFound =>
      Except.ok (mkvPre env ++ [Event.log "FFmpeg not found! Set correct ffmpeg path.",
                                Event.finished false ""])
  | SpawnResult.failed => Except.error ()
  | SpawnResult.ok =>
      let r := mkvLoop env.cancelFrom env.duration env.lines 0 0
      if r.cancelled then Except.ok (mkvPre env ++ r.events)
      else if env.streamExn then Except.error ()
      else if env.rc = 0 then
        Except.ok (mkvPre env ++ r.events ++ [Event.progress 100, Event.finished true env.output])
      else
        Except.ok (mkvPre env ++ r.events ++ [Event.finished false ""])

/-! ## Trace observations -/

/-- The percent values of the progress events of a trace, in order. -/
def progressOf : List Event → List ℚ
  | [] => []
  | Event.progress p :: es => p :: progressOf es
  | Event.started :: es => progressOf es
  | Event.log _ :: es => progressOf es
  | Event.finished _ _ :: es => progressOf es

/-- The first `finished` emission of a trace. -/
def finishedOf : List Event → Option (Bool × String)
  | [] => none
  | Event.finished ok out :: _ => some (ok, out)
  | Event.started :: es => finishedOf es
  | Event.progress _ :: es => finishedOf es
  | Event.log _ :: es => finishedOf es

/-- First `finished` emission of an mkv run, `none` when the run escaped
with an exception. -/
def finishedE : Except Unit (List Event) → Option (Bool × String)
  | Except.error _ => none
  | Except.ok evs => finishedOf evs

/-- The throttling contract relative to a last-emitted value: each value is
at least `0.5` above the previous emitted value (starting from `last`), or
equals `100`. -/
def throttleOkFrom (last : ℚ) : List ℚ → Bool
  | [] => true
  | p :: ps => (decide (1/2 ≤ p - last) || decide (p = (100 : ℚ))) && throttleOkFrom p ps

/-- Non-decreasing from a starting value. -/
def monoFrom (last : ℚ) : List ℚ → Bool
  | [] => true
  | p :: ps => decide (last ≤ p) && monoFrom p ps

/-- All values within `[0, 100]`. -/
def inRange : List ℚ → Bool
  | [] => true
  | p :: ps => (decide ((0 : ℚ) ≤ p) && decide (p ≤ (100 : ℚ))) && inRange ps

/-- The log events a loop pass forwards for a list of stripped lines: each
nonempty text, in order. -/
def logEvents : List Line → List Event
  | [] => []
  | l :: ls => (if l.text = "" then [] else [Event.log l.text]) ++ logEvents ls

/-! ## MainWindow state

`MainWindow` of the universal variant keeps `self.items`, a dict mapping
the absolute source path to `{"widget": ..., "item": ..., "worker": ...,
"status": ...}`; a `QThreadPool` with a runtime-adjustable
`maxThreadCount`; and for the folder watch a `QFileSystemWatcher` plus the
`self.watched` set.  The registry is modelled as an insertion-ordered
association list (a Python dict preserves insertion order and has unique
keys); the thread pool by its capacity, the number of runnables currently
executing, and the number waiting in its internal admission queue. -/

/-- The `status` field of an `items` entry: one of `"queued"`, `"running"`,
`"done"`, `"failed"`. -/
inductive Status where
  | queued : Status
  | running : Status
  | done : Status
  | failed : Status
deriving DecidableEq

/-- Per-job registry entry: its `status` string, the integer value of its
item widget's progress bar (`FileItemWidget.progress`), and whether the
`worker` field is non-`None`. -/
structure JobMeta where
  status : Status
  widgetValue : Int
  hasWorker : Bool
deriving DecidableEq

/-- Python `int()` on a rational: truncation toward zero, as used by
`FileItemWidget.set_progress` (`self.progress.setValue(int(p))`). -/
def truncInt (q : ℚ) : Int :=
  if 0 ≤ q then ⌊q⌋ else ⌈q⌉

/-- The application state: registry, thread pool accounting, and the watch
bookkeeping (`watched` is `self.watched`; `watcherPaths` the directories
currently registered with the `QFileSystemWatcher`). -/
structure AppState where
  items : List (String × JobMeta)
  capacity : ℕ
  active : ℕ
  pending : ℕ
  watched : List String
  watcherPaths : List String
deriving DecidableEq

/-- Keys of the registry. -/
def AppState.keys (st : AppState) : List String :=
  st.items.map Prod.fst

/-- Registry lookup (`self.items.get(path)`). -/
def lookupJob (items : List (String × JobMeta)) (p : String) : Option JobMeta :=
  match items with
  | [] => none
  | (q, m) :: rest => if q = p then some m else lookupJob rest p

/-- Update the entry at a key in place. -/
def updateJob (items : List (String × JobMeta)) (p : String)
    (f : JobMeta → JobMeta) : List (String × JobMeta) :=
  match items with
  | [] => []
  | (q, m) :: rest =>
      if q = p then (q, f m) :: rest else (q, m) :: updateJob rest p f

/-- Delete the entry at a key (`self.items.pop(src, None)`; dict keys are
unique, so removing every occurrence agrees with removing the entry). -/
def removeJob (items : List (String × JobMeta)) (p : String) :
    List (String × JobMeta) :=
  items.filter (fun pm => pm.1 ≠ p)

/-- `MainWindow._add_file` (universal variant, lines 306-322): reject when
the lowered `splitext` extension is not in `INPUT_EXTS`, normalize with
`os.path.abspath` (the parameter `norm`), silently no-op when the key is
already present, otherwise append a fresh entry with status `"queued"`,
progress-bar value `0` and no worker. -/
def addFile (norm : String → String) (st : AppState) (p : String) : AppState :=
  if extAllowed p then
    let key := norm p
    match lookupJob st.items key with
    | some _ => st
    | none => { st with items := st.items ++ [(key, ⟨Status.queued, 0, false⟩)] }
  else st

/-- `QThreadPool.start`: begin executing the runnable at once when fewer
than `maxThreadCount` runnables are active, otherwise place it in the
pool's internal queue. -/
def poolStart (st : AppState) : AppState :=
  if st.active < st.capacity then { st with active := st.active + 1 }
  else { st with pending := st.pending + 1 }

/-- `MainWindow._start_conversion` (lines 368-382): look the path up
(`self.items.get`), return when absent; otherwise create a worker, set
`meta["worker"]`, set `meta["status"] = "running"`, and hand the runnable
to the thread pool.  The status is set before the pool admits the
runnable, regardless of capacity. -/
def startConversion (st : AppState) (p : String) : AppState :=
  match lookupJob st.items p with
  | none => st
  | some _ =>
      poolStart { st with
        items := updateJob st.items p
          (fun m => { m with status := Status.running, hasWorker := true }) }

/-- The eligible list of `MainWindow.start_all` (line 361):
`[p for p, m in self.items.items() if m["status"] in ("queued", "failed")]`. -/
def eligible (st : AppState) : List String :=
  (st.items.filter
    (fun pm => pm.2.status = Status.queued ∨ pm.2.status = Status.failed)).map Prod.fst

/-- `MainWindow.start_all` (lines 358-366): dispatch every queued or failed
job in registry order (an empty eligible list only shows a message box; the
refresh of the ffmpeg/ffprobe path strings on lines 359-360 touches no
state modelled here). -/
def startAll (st : AppState) : AppState :=
  (eligible st).foldl startConversion st

/-- Number of registry entries whose status is `"running"`. -/
def runningCount (st : AppState) : ℕ :=
  (st.items.filter (fun pm => pm.2.status = Status.running)).length

/-- `MainWindow._on_progress` → `FileItemWidget.set_progress`: store
`int(percent)` in the item's progress bar. -/
def onProgress (st : AppState) (p : String) (percent : ℚ) : AppState :=
  { st with
    items := updateJob st.items p
      (fun m => { m with widgetValue := truncInt percent }) }

/-- `MainWindow._on_finished` (lines 392-401): set status `"done"` or
`"failed"`, clear the worker, and `set_done` puts the progress bar at 100
on success and leaves it on failure. -/
def onFinished (st : AppState) (p : String) (ok : Bool) : AppState :=
  { st with
    items := updateJob st.items p
      (fun m =>
        { m with
          status := if ok then Status.done else Status.failed,
          hasWorker := false,
          widgetValue := if ok then 100 else m.widgetValue }) }

/-- `MainWindow._remove_item` (lines 423-428): pop the entry and take its
row out of the list widget. -/
def removeItem (st : AppState) (p : String) : AppState :=
  { st with items := removeJob st.items p }

/-- `MainWindow._cancel_item` (lines 413-421): when the entry has a worker,
set its cancel flag (a worker-side effect, no registry change); otherwise
remove the queued item.  The guard is worker presence, not the status
string. -/
def cancelItem (st : AppState) (p : String) : AppState :=
  match lookupJob st.items p with
  | none => st
  | some m => if m.hasWorker then st else removeItem st p

/-- `MainWindow._toggle_watch` (lines 349-355): on unchecking,
`removePath` every watched directory from the `QFileSystemWatcher` and then
`self.watched.clear()`; on any other state, do nothing. -/
def toggleWatch (st : AppState) (state : ℕ) : AppState :=
  if state = 0 then
    { st with
      watched := [],
      watcherPaths := st.watcherPaths.filter (fun q => ¬ st.watched.contains q) }
  else st

/-- `MainWindow._watch_folder` (lines 336-343): no-op when already in
`self.watched`, else add to the set and register with the watcher. -/
def watchFolder (st : AppState) (f : String) : AppState :=
  if st.watched.contains f then st
  else { st with watched := st.watched ++ [f], watcherPaths := st.watcherPaths ++ [f] }

/-- `avi_to_mp4_gui.MainWindow.update_watch` (lines 371-387): on checking,
re-register with the watcher every tracked folder that still exists
(`ex` models `os.path.exists`; `QFileSystemWatcher.addPath` is a no-op on
an already-registered path); on unchecking, `removePath` each tracked
folder and clear `self.watched_folders`. -/
def aviUpdateWatch (ex : String → Bool) (st : AppState) (checked : Bool) : AppState :=
  if checked then
    { st with
      watcherPaths := st.watched.foldl
        (fun acc f => if ex f ∧ ¬ acc.contains f then acc ++ [f] else acc)
        st.watcherPaths }
  else
    { st with
      watched := [],
      watcherPaths := st.watcherPaths.filter (fun q => ¬ st.watched.contains q) }

/-- `MainWindow._refresh_overall` (lines 434-443) on a non-empty registry:
the reported overall percent is the sum of the per-item progress-bar values
divided by the number of items (and `0` on an empty registry). -/
def refreshOverall (st : AppState) : ℚ :=
  if st.items.length = 0 then 0
  else (st.items.map (fun pm => (pm.2.widgetValue : ℚ))).sum / (st.items.length : ℚ)

/-- The spec's per-job contribution convention: Queued contributes 0, Done
contributes 100, Running and Failed contribute the last recorded value. -/
def conventionValue (m : JobMeta) : ℚ :=
  match m.status with
  | Status.queued => 0
  | Status.done => 100
  | Status.running => (m.widgetValue : ℚ)
  | Status.failed => (m.widgetValue : ℚ)

/-! ## Helper lemmas: traces -/

theorem progressOf_append (a b : List Event) :
    progressOf (a ++ b) = progressOf a ++ progressOf b := by
  induction a with
  | nil => simp [progressOf]
  | cons e es ih => cases e <;> simp [progressOf, ih]

theorem progressOf_logEv (t : String) (es : List Event) :
    progressOf ((if t = "" then ([] : List Event) else [Event.log t]) ++ es) =
      progressOf es := by
  split <;> simp [progressOf]

theorem finishedOf_logEv (t : String) (es : List Event) :
    finishedOf ((if t = "" then ([] : List Event) else [Event.log t]) ++ es) =
      finishedOf es := by
  split <;> simp [finishedOf]

theorem progressOf_uPre (env : RunEnv) (evs : List Event) :
    progressOf (uPre env ++ evs) = progressOf evs := by
  unfold uPre; cases env.duration <;> simp [progressOf]

theorem finishedOf_uPre (env : RunEnv) (evs : List Event) :
    finishedOf (uPre env ++ evs) = finishedOf evs := by
  unfold uPre; cases env.duration <;> simp [finishedOf]

theorem progressOf_aviPre (env : RunEnv) (evs : List Event) :
    progressOf (aviPre env ++ evs) = progressOf evs := by
  unfold aviPre; cases env.duration <;> simp [progressOf]

theorem finishedOf_aviPre (env : RunEnv) (evs : List Event) :
    finishedOf (aviPre env ++ evs) = finishedOf evs := by
  unfold aviPre; cases env.duration <;> simp [finishedOf]

theorem progressOf_mkvPre (env : RunEnv) (evs : List Event) :
    progressOf (mkvPre env ++ evs) = progressOf evs := by
  unfold mkvPre; cases env.duration <;> simp [progressOf]

theorem finishedOf_mkvPre (env : RunEnv) (evs : List Event) :
    finishedOf (mkvPre env ++ evs) = finishedOf evs := by
  unfold mkvPre; cases env.duration <;> simp [finishedOf]

/-! ## Helper lemmas: the per-line progress decisions -/

theorem TimeStamp.seconds_nonneg (t : TimeStamp) : 0 ≤ t.seconds := by
  have hs := t.s_nonneg
  unfold TimeStamp.seconds
  positivity

theorem stepPercent_guard {dur : Option ℚ} {last p : ℚ} {l : Line}
    (h : stepPercent dur last l = some p) : 1/2 ≤ p - last ∨ p = 100 := by
  rcases hlt : l.time with _ | t <;> rcases hdur : dur with _ | d <;>
    simp only [stepPercent, hlt, hdur] at h
  · exact Option.noConfusion h
  · exact Option.noConfusion h
  · exact Option.noConfusion h
  · split at h
    · exact Option.noConfusion h
    · split at h
      · rename_i hg
        obtain rfl := Option.some.inj h
        exact hg
      · exact Option.noConfusion h

theorem mkvStepPercent_guard {dur : Option ℚ} {last p : ℚ} {l : Line}
    (h : mkvStepPercent dur last l = some p) : 1/2 ≤ p - last := by
  rcases hlt : l.time with _ | t <;> rcases hdur : dur with _ | d <;>
    simp only [mkvStepPercent, hlt, hdur] at h
  · exact Option.noConfusion h
  · exact Option.noConfusion h
  · exact Option.noConfusion h
  · split at h
    · exact Option.noConfusion h
    · split at h
      · rename_i hg
        obtain rfl := Option.some.inj h
        exact hg
      · exact Option.noConfusion h

theorem aviStepPercent_guard {dur : Option ℚ} {last p : ℚ} {l : Line}
    (h : aviStepPercent dur last l = some p) : 1/2 ≤ p - last ∨ p = 100 := by
  rcases hlt : l.time with _ | t <;> rcases hdur : dur with _ | d <;>
    simp only [aviStepPercent, hlt, hdur] at h
  · exact Option.noConfusion h
  · exact Option.noConfusion h
  · exact Option.noConfusion h
  · split at h
    · exact Option.noConfusion h
    · split at h
      · rename_i hg
        obtain rfl := Option.some.inj h
        exact hg
      · exact Option.noConfusion h

theorem stepPercent_range {d last p : ℚ} {l : Line} (hd : 0 < d)
    (h : stepPercent (some d) last l = some p) : 0 ≤ p ∧ p ≤ 100 := by
  rcases hlt : l.time with _ | t <;>
    simp only [stepPercent, hlt] at h
  · exact Option.noConfusion h
  · split at h
    · exact Option.noConfusion h
    · split at h
      · obtain rfl := Option.some.inj h
        constructor
        · refine le_min (by norm_num) ?_
          have hs := t.seconds_nonneg
          positivity
        · exact min_le_left _ _
      · exact Option.noConfusion h

theorem stepPercent_mono {d last p : ℚ} {l : Line} (hlast : last ≤ 100)
    (h : stepPercent (some d) last l = some p) : last ≤ p := by
  rcases stepPercent_guard h with hg | hg
  · linarith
  · simpa [hg] using hlast

/-- For an absent or zero probe result the universal decision never fires:
the `if m and duration` truthiness guard skips the whole computation. -/
theorem stepPercent_nodur {dur : Option ℚ} (h : dur = none ∨ dur = some 0)
    (last : ℚ) (l : Line) : stepPercent dur last l = none := by
  rcases h with rfl | rfl <;> unfold stepPercent <;> rcases l.time with _ | t <;> simp

theorem mkvStepPercent_nodur {dur : Option ℚ} (h : dur = none ∨ dur = some 0)
    (last : ℚ) (l : Line) : mkvStepPercent dur last l = none := by
  rcases h with rfl | rfl <;> unfold mkvStepPercent <;> rcases l.time with _ | t <;> simp

theorem aviStepPercent_nodur {dur : Option ℚ} (h : dur = none ∨ dur = some 0)
    (last : ℚ) (l : Line) : aviStepPercent dur last l = none := by
  rcases h with rfl | rfl <;> unfold aviStepPercent <;> rcases l.time with _ | t <;> simp

/-! ## Helper lemmas: the streaming loops -/

theorem uLoop_throttle (c : Option ℕ) (dur : Option ℚ) (ls : List Line) :
    ∀ (i : ℕ) (last : ℚ),
      throttleOkFrom last (progressOf (uLoop c dur ls i last).events) = true := by
  induction ls with
  | nil => intro i last; simp [uLoop, progressOf, throttleOkFrom]
  | cons l ls ih =>
    intro i last
    simp only [uLoop]
    split
    · simp [progressOf, throttleOkFrom]
    · cases hsp : stepPercent dur last l with
      | none =>
          simp only [hsp, progressOf_logEv]
          exact ih (i + 1) last
      | some p =>
          simp only [hsp, progressOf_logEv, progressOf, throttleOkFrom,
            Bool.and_eq_true, Bool.or_eq_true, decide_eq_true_eq]
          exact ⟨stepPercent_guard hsp, ih (i + 1) p⟩

theorem mkvLoop_throttle (c : Option ℕ) (dur : Option ℚ) (ls : List Line) :
    ∀ (i : ℕ) (last : ℚ),
      throttleOkFrom last (progressOf (mkvLoop c dur ls i last).events) = true := by
  induction ls with
  | nil => intro i last; simp [mkvLoop, progressOf, throttleOkFrom]
  | cons l ls ih =>
    intro i last
    simp only [mkvLoop]
    split
    · simp [progressOf, throttleOkFrom]
    · cases hsp : mkvStepPercent dur last l with
      | none =>
          simp only [hsp, progressOf_logEv]
          exact ih (i + 1) last
      | some p =>
          simp only [hsp, progressOf_logEv, progressOf, throttleOkFrom,
            Bool.and_eq_true, Bool.or_eq_true, decide_eq_true_eq]
          exact ⟨Or.inl (mkvStepPercent_guard hsp), ih (i + 1) p⟩

theorem throttleOkFrom_append100 (ps : List ℚ) :
    ∀ last : ℚ, throttleOkFrom last ps = true →
      throttleOkFrom last (ps ++ [100]) = true := by
  induction ps with
  | nil => intro last _; simp [throttleOkFrom]
  | cons p ps ih =>
    intro last h
    simp only [throttleOkFrom, List.cons_append, Bool.and_eq_true] at h ⊢
    exact ⟨h.1, ih p h.2⟩

theorem uLoop_finished (c : Option ℕ) (dur : Option ℚ) (ls : List Line) :
    ∀ (i : ℕ) (last : ℚ) (evs : List Event),
      finishedOf ((uLoop c dur ls i last).events ++ evs) =
        if (uLoop c dur ls i last).cancelled then some (false, "")
        else finishedOf evs := by
  induction ls with
  | nil => intro i last evs; simp [uLoop]
  | cons l ls ih =>
    intro i last evs
    simp only [uLoop]
    split
    · simp [finishedOf]
    · cases hsp : stepPercent dur last l with
      | none =>
          simp only [hsp, List.append_assoc, finishedOf_logEv]
          exact ih (i + 1) last evs
      | some p =>
          simp only [hsp, List.append_assoc, List.cons_append, finishedOf_logEv,
            finishedOf]
          exact ih (i + 1) p evs

theorem mkvLoop_finished (c : Option ℕ) (dur : Option ℚ) (ls : List Line) :
    ∀ (i : ℕ) (last : ℚ) (evs : List Event),
      finishedOf ((mkvLoop c dur ls i last).events ++ evs) =
        if (mkvLoop c dur ls i last).cancelled then some (false, "")
        else finishedOf evs := by
  induction ls with
  | nil => intro i last evs; simp [mkvLoop]
  | cons l ls ih =>
    intro i last evs
    simp only [mkvLoop]
    split
    · simp [finishedOf]
    · cases hsp : mkvStepPercent dur last l with
      | none =>
          simp only [hsp, List.append_assoc, finishedOf_logEv]
          exact ih (i + 1) last evs
      | some p =>
          simp only [hsp, List.append_assoc, List.cons_append, finishedOf_logEv,
            finishedOf]
          exact ih (i + 1) p evs

theorem aviLoop_finished (c : Option ℕ) (dur : Option ℚ) (ls : List Line) :
    ∀ (i : ℕ) (last : ℚ) (evs : List Event),
      finishedOf ((aviLoop c dur ls i last).events ++ evs) =
        if (aviLoop c dur ls i last).cancelled then some (false, "")
        else finishedOf evs := by
  induction ls with
  | nil => intro i last evs; simp [aviLoop]
  | cons l ls ih =>
    intro i last evs
    simp only [aviLoop]
    split
    · simp [finishedOf]
    · cases hsp : aviStepPercent dur last l with
      | none =>
          simp only [hsp, List.append_assoc, finishedOf_logEv]
          exact ih (i + 1) last evs
      | some p =>
          simp only [hsp, List.append_assoc, List.cons_append, finishedOf_logEv,
            finishedOf]
          exact ih (i + 1) p evs

theorem uLoop_cancel_fires (k : ℕ) (dur : Option ℚ) (ls : List Line) :
    ∀ (i : ℕ) (last : ℚ), i ≤ k → k < i + ls.length →
      (uLoop (some k) dur ls i last).cancelled = true := by
  induction ls with
  | nil => intro i last h1 h2; simp at h2; omega
  | cons l ls ih =>
    intro i last h1 h2
    simp only [uLoop]
    by_cases hc : cancelAt (some k) i = true
    · simp [hc]
    · have hik : i < k := by
        simp only [cancelAt, decide_eq_true_eq] at hc
        omega
      simp only [Bool.not_eq_true] at hc
      simp only [hc, Bool.false_eq_true, if_false]
      cases hsp : stepPercent dur last l <;>
        simp only [hsp] <;>
        exact ih (i + 1) _ (by omega) (by simp at h2 ⊢; omega)

theorem uLoop_mono_range {d : ℚ} (hd : 0 < d) (c : Option ℕ) (ls : List Line) :
    ∀ (i : ℕ) (last : ℚ), 0 ≤ last → last ≤ 100 →
      monoFrom last (progressOf (uLoop c (some d) ls i last).events) = true ∧
      inRange (progressOf (uLoop c (some d) ls i last).events) = true := by
  induction ls with
  | nil => intro i last _ _; simp [uLoop, progressOf, monoFrom, inRange]
  | cons l ls ih =>
    intro i last h0 h100
    simp only [uLoop]
    split
    · simp [progressOf, monoFrom, inRange]
    · cases hsp : stepPercent (some d) last l with
      | none =>
          simp only [hsp, progressOf_logEv]
          exact ih (i + 1) last h0 h100
      | some p =>
          obtain ⟨hp0, hp100⟩ := stepPercent_range hd hsp
          have hmono := stepPercent_mono h100 hsp
          obtain ⟨ihm, ihr⟩ := ih (i + 1) p hp0 hp100
          simp only [hsp, progressOf_logEv, progressOf, monoFrom, inRange,
            Bool.and_eq_true, decide_eq_true_eq]
          exact ⟨⟨hmono, ihm⟩, ⟨⟨hp0, hp100⟩, ihr⟩⟩

theorem inRange_append (ps qs : List ℚ) :
    inRange (ps ++ qs) = (inRange ps && inRange qs) := by
  induction ps with
  | nil => simp [inRange]
  | cons p ps ih => simp [inRange, ih, Bool.and_assoc]

theorem monoFrom_append100 (ps : List ℚ) :
    ∀ last : ℚ, last ≤ 100 → monoFrom last ps = true → inRange ps = true →
      monoFrom last (ps ++ [100]) = true := by
  induction ps with
  | nil =>
    intro last h _ _
    simp [monoFrom, h]
  | cons p ps ih =>
    intro last _ hm hr
    simp only [monoFrom, inRange, Bool.and_eq_true, decide_eq_true_eq] at hm hr
    simp only [List.cons_append, monoFrom, Bool.and_eq_true, decide_eq_true_eq]
    exact ⟨hm.1, ih p hr.1.2 hm.2 hr.2⟩

theorem uLoop_nodur {dur : Option ℚ} (h : dur = none ∨ dur = some 0)
    (ls : List Line) :
    ∀ (i : ℕ) (last : ℚ), uLoop none dur ls i last = ⟨logEvents ls, false⟩ := by
  induction ls with
  | nil => intro i last; simp [uLoop, logEvents]
  | cons l ls ih =>
    intro i last
    simp only [uLoop, cancelAt]
    rw [stepPercent_nodur h]
    simp [logEvents, ih (i + 1) last]

theorem mkvLoop_nodur {dur : Option ℚ} (h : dur = none ∨ dur = some 0)
    (ls : List Line) :
    ∀ (i : ℕ) (last : ℚ), mkvLoop none dur ls i last = ⟨logEvents ls, false⟩ := by
  induction ls with
  | nil => intro i last; simp [mkvLoop, logEvents]
  | cons l ls ih =>
    intro i last
    simp only [mkvLoop, cancelAt]
    rw [mkvStepPercent_nodur h]
    simp [logEvents, ih (i + 1) last]

theorem aviLoop_nodur {dur : Option ℚ} (h : dur = none ∨ dur = some 0)
    (ls : List Line) :
    ∀ (i : ℕ) (last : ℚ), aviLoop none dur ls i last = ⟨logEvents ls, false⟩ := by
  induction ls with
  | nil => intro i last; simp [aviLoop, logEvents]
  | cons l ls ih =>
    intro i last
    simp only [aviLoop, cancelAt]
    rw [aviStepPercent_nodur h]
    simp [logEvents, ih (i + 1) last]

/-! ## Helper lemmas: registry and pool -/

theorem lookupJob_append_of_none {items : List (String × JobMeta)} {k : String}
    (h : lookupJob items k = none) (ys : List (String × JobMeta)) :
    lookupJob (items ++ ys) k = lookupJob ys k := by
  induction items with
  | nil => simp [lookupJob]
  | cons pm rest ih =>
    simp only [lookupJob, List.cons_append] at h ⊢
    split at h
    · exact Option.noConfusion h
    · rename_i hne
      simp only [hne, if_false]
      exact ih h

theorem lookupJob_removeJob (items : List (String × JobMeta)) (p : String) :
    lookupJob (removeJob items p) p = none := by
  induction items with
  | nil => simp [removeJob, lookupJob]
  | cons pm rest ih =>
    unfold removeJob at ih ⊢
    simp only [ne_eq, decide_not] at ih ⊢
    by_cases hp : pm.1 = p
    · simp [List.filter_cons, hp, ih]
    · simp [List.filter_cons, hp, lookupJob, ih]

theorem poolStart_capacity (st : AppState) : (poolStart st).capacity = st.capacity := by
  unfold poolStart; split <;> rfl

theorem poolStart_active_le (st : AppState) (h : st.active ≤ st.capacity) :
    (poolStart st).active ≤ (poolStart st).capacity := by
  unfold poolStart; split <;> simp_all; omega

theorem startConversion_capacity (st : AppState) (p : String) :
    (startConversion st p).capacity = st.capacity := by
  unfold startConversion
  cases lookupJob st.items p <;> simp [poolStart_capacity]

theorem startConversion_active_le (st : AppState) (p : String)
    (h : st.active ≤ st.capacity) :
    (startConversion st p).active ≤ (startConversion st p).capacity := by
  unfold startConversion
  cases lookupJob st.items p with
  | none => exact h
  | some m => exact poolStart_active_le _ h

theorem foldl_startConversion_inv (ps : List String) :
    ∀ st : AppState, st.active ≤ st.capacity →
      (ps.foldl startConversion st).active ≤ (ps.foldl startConversion st).capacity ∧
      (ps.foldl startConversion st).capacity = st.capacity := by
  induction ps with
  | nil => intro st h; exact ⟨h, rfl⟩
  | cons p ps ih =>
    intro st h
    obtain ⟨h1, h2⟩ := ih (startConversion st p) (startConversion_active_le st p h)
    exact ⟨h1, h2.trans (startConversion_capacity st p)⟩

/-! ## Helper lemmas: full-run traces -/

/-- The progress events of a whole universal run are those of its streaming
loop, possibly followed by the terminal `100` of a zero exit code. -/
theorem progressOf_uRun (env : RunEnv) :
    progressOf (uRun env) = [] ∨
    progressOf (uRun env) =
      progressOf (uLoop env.cancelFrom env.duration env.lines 0 0).events ∨
    progressOf (uRun env) =
      progressOf (uLoop env.cancelFrom env.duration env.lines 0 0).events ++ [100] := by
  rcases hs : env.spawn with _ | _ | _
  · simp only [uRun, hs]
    split
    · right; left
      rw [progressOf_uPre]
    · split
      · right; left
        rw [List.append_assoc, progressOf_uPre, progressOf_append]
        simp [progressOf]
      · split
        · right; right
          rw [List.append_assoc, progressOf_uPre, progressOf_append]
          simp [progressOf]
        · right; left
          rw [List.append_assoc, progressOf_uPre, progressOf_append]
          simp [progressOf]
  · left
    simp only [uRun, hs]
    rw [progressOf_uPre]
    simp [progressOf]
  · left
    simp only [uRun, hs]
    rw [progressOf_uPre]
    simp [progressOf]

/-- A universal run always emits a `finished` signal: every exception path
of `run` is caught and converted to `finished(False, "")`. -/
theorem uRun_finished_isSome (env : RunEnv) :
    (finishedOf (uRun env)).isSome = true := by
  rcases hs : env.spawn with _ | _ | _
  · simp only [uRun, hs]
    split
    · rename_i hc
      rw [finishedOf_uPre]
      have h := uLoop_finished env.cancelFrom env.duration env.lines 0 0 []
      rw [List.append_nil, hc, if_pos rfl] at h
      simp [h]
    · rename_i hc
      simp only [Bool.not_eq_true] at hc
      split
      · rw [List.append_assoc, finishedOf_uPre,
          uLoop_finished env.cancelFrom env.duration env.lines 0 0, hc]
        simp [finishedOf]
      · split
        · rw [List.append_assoc, finishedOf_uPre,
            uLoop_finished env.cancelFrom env.duration env.lines 0 0, hc]
          simp [finishedOf]
        · rw [List.append_assoc, finishedOf_uPre,
            uLoop_finished env.cancelFrom env.duration env.lines 0 0, hc]
          simp [finishedOf]
  · simp only [uRun, hs]
    rw [finishedOf_uPre]
    simp [finishedOf]
  · simp only [uRun, hs]
    rw [finishedOf_uPre]
    simp [finishedOf]

/-- An avi run always emits a `finished` signal. -/
theorem aviRun_finished_isSome (env : RunEnv) :
    (finishedOf (aviRun env)).isSome = true := by
  rcases hs : env.spawn with _ | _ | _
  · simp only [aviRun, hs]
    split
    · rename_i hc
      rw [finishedOf_aviPre]
      have h := aviLoop_finished env.cancelFrom env.duration env.lines 0 0 []
      rw [List.append_nil, hc, if_pos rfl] at h
      simp [h]
    · rename_i hc
      simp only [Bool.not_eq_true] at hc
      split
      · rw [List.append_assoc, finishedOf_aviPre,
          aviLoop_finished env.cancelFrom env.duration env.lines 0 0, hc]
        simp [finishedOf]
      · split
        · rw [List.append_assoc, finishedOf_aviPre,
            aviLoop_finished env.cancelFrom env.duration env.lines 0 0, hc]
          simp [finishedOf]
        · rw [List.append_assoc, finishedOf_aviPre,
            aviLoop_finished env.cancelFrom env.duration env.lines 0 0, hc]
          simp [finishedOf]
  · simp only [aviRun, hs]
    rw [finishedOf_aviPre]
    simp [finishedOf]
  · simp only [aviRun, hs]
    rw [finishedOf_aviPre]
    simp [finishedOf]

/-- When no exception escapes an mkv run (a successful or `FileNotFoundError`
spawn, and no exception while streaming), it too always emits `finished`. -/
theorem mkvRun_finished_isSome (env : RunEnv)
    (h1 : env.spawn ≠ SpawnResult.failed) (h2 : env.streamExn = false) :
    (finishedE (mkvRun env)).isSome = true := by
  rcases hs : env.spawn with _ | _ | _
  · simp only [mkvRun, hs]
    split
    · rename_i hc
      simp only [finishedE]
      rw [finishedOf_mkvPre]
      have h := mkvLoop_finished env.cancelFrom env.duration env.lines 0 0 []
      rw [List.append_nil, hc, if_pos rfl] at h
      simp [h]
    · rename_i hc
      simp only [Bool.not_eq_true] at hc
      rw [h2]
      simp only [Bool.false_eq_true, if_false]
      split
      · simp only [finishedE]
        rw [List.append_assoc, finishedOf_mkvPre,
          mkvLoop_finished env.cancelFrom env.duration env.lines 0 0, hc]
        simp [finishedOf]
      · simp only [finishedE]
        rw [List.append_assoc, finishedOf_mkvPre,
          mkvLoop_finished env.cancelFrom env.duration env.lines 0 0, hc]
        simp [finishedOf]
  · simp only [mkvRun, hs]
    simp only [finishedE]
    rw [finishedOf_mkvPre]
    simp [finishedOf]
  · exact absurd hs h1

/-! ## Concrete run environments used by counterexamples and witnesses -/

/-- A diagnostic line with no `time=` marker. -/
def lineNoTime : Line :=
  { text := "frame= 10 fps=0.0 q=0.0 size= 256kB", time := none }

/-- A diagnostic line reporting `time=00:00:05.00`. -/
def lineAt5 : Line :=
  { text := "size= 256kB time=00:00:05.00 bitrate= 419.4kbits/s",
    time := some ⟨0, 0, 5, by norm_num⟩ }

def c1CexEnv : RunEnv :=
  { duration := none, spawn := SpawnResult.ok, lines := [lineNoTime],
    cancelFrom := some 1, streamExn := false, rc := 0, output := "movie.mp4" }

def c1WitEnv : RunEnv :=
  { duration := none, spawn := SpawnResult.ok, lines := [lineNoTime],
    cancelFrom := some 0, streamExn := false, rc := 0, output := "movie.mp4" }

/-! ## Claims -/

/-- Claim C1, counterexample.  The claim says a cancellation request made at
any point while the job is Running always yields a failure outcome.  In
`c1CexEnv` the kill flag is set after the check before line 0 (the only
line), so the flag is set while the run is in flight but no further line
check observes it; the process exits with code 0 and the worker emits
`finished(True, output)` — the job ends Done despite the request. -/
theorem C1_cancel_counterexample :
    c1CexEnv.cancelFrom = some 1 ∧
    finishedOf (uRun c1CexEnv) = some (true, "movie.mp4") :=
  ⟨rfl, by decide⟩

/-- Claim C1, amended: the flag is polled only at line boundaries, so
cancellation forces a failure outcome precisely when it is visible before
some remaining stderr line is processed; if the flag is set from check `k`
onward and the stream still holds a line with index at least `k`, the
universal worker kills the process and emits `finished(False, "")`. -/
theorem C1_cancel_amended (env : RunEnv) (k : ℕ)
    (h1 : env.spawn = SpawnResult.ok) (h2 : env.cancelFrom = some k)
    (h3 : k < env.lines.length) :
    finishedOf (uRun env) = some (false, "") := by
  have hc : (uLoop env.cancelFrom env.duration env.lines 0 0).cancelled = true := by
    rw [h2]
    exact uLoop_cancel_fires k env.duration env.lines 0 0 (Nat.zero_le k) (by omega)
  have hrun : uRun env =
      uPre env ++ (uLoop env.cancelFrom env.duration env.lines 0 0).events := by
    simp [uRun, h1, hc]
  rw [hrun, finishedOf_uPre]
  have h := uLoop_finished env.cancelFrom env.duration env.lines 0 0 []
  rw [List.append_nil, hc, if_pos rfl] at h
  exact h

theorem C1_cancel_witness :
    c1WitEnv.spawn = SpawnResult.ok ∧ c1WitEnv.cancelFrom = some 0 ∧
    0 < c1WitEnv.lines.length ∧
    finishedOf (uRun c1WitEnv) = some (false, "") :=
  ⟨rfl, rfl, by decide, C1_cancel_amended c1WitEnv 0 rfl rfl (by decide)⟩

def c4UEnv : RunEnv :=
  { duration := some 10, spawn := SpawnResult.ok, lines := [lineAt5],
    cancelFrom := none, streamExn := false, rc := 0, output := "a.mp4" }

def c4MEnv : RunEnv :=
  { duration := some 5, spawn := SpawnResult.ok, lines := [], cancelFrom := none,
    streamExn := false, rc := 0, output := "b.mp4" }

def c4Evs : List Event :=
  [Event.started, Event.progress 100, Event.finished true "b.mp4"]

/-- Claim C4: progress is throttled.  For a universal run, every emitted
progress value either exceeds the previously emitted value (initially 0) by
at least 0.5 points or equals 100; the mkv variant satisfies the same
contract because its loop guard (`percent - last >= 0.5`, with no `== 100`
escape) is strictly stronger, and in both the only event allowed to follow
by a smaller delta is a 100-valued one — in particular the terminal 100
emitted on exit code 0. -/
theorem C4_throttled (env envM : RunEnv) (evs : List Event)
    (h : mkvRun envM = Except.ok evs) :
    throttleOkFrom 0 (progressOf (uRun env)) = true ∧
    throttleOkFrom 0 (progressOf evs) = true := by
  constructor
  · rcases progressOf_uRun env with h0 | h0 | h0 <;> rw [h0]
    · rfl
    · exact uLoop_throttle env.cancelFrom env.duration env.lines 0 0
    · exact throttleOkFrom_append100 _ 0
        (uLoop_throttle env.cancelFrom env.duration env.lines 0 0)
  · rcases hs : envM.spawn with _ | _ | _
    · simp only [mkvRun, hs] at h
      split at h
      · obtain rfl := Except.ok.inj h
        rw [progressOf_mkvPre]
        exact mkvLoop_throttle envM.cancelFrom envM.duration envM.lines 0 0
      · split at h
        · exact Except.noConfusion h
        · split at h
          · obtain rfl := Except.ok.inj h
            rw [List.append_assoc, progressOf_mkvPre, progressOf_append]
            simp only [progressOf]
            exact throttleOkFrom_append100 _ 0
              (mkvLoop_throttle envM.cancelFrom envM.duration envM.lines 0 0)
          · obtain rfl := Except.ok.inj h
            rw [List.append_assoc, progressOf_mkvPre, progressOf_append]
            simp only [progressOf, List.append_nil]
            exact mkvLoop_throttle envM.cancelFrom envM.duration envM.lines 0 0
    · simp only [mkvRun, hs] at h
      obtain rfl := Except.ok.inj h
      rw [progressOf_mkvPre]
      rfl
    · simp only [mkvRun, hs] at h
      exact Except.noConfusion h

theorem C4_throttled_witness :
    mkvRun c4MEnv = Except.ok c4Evs ∧
    (throttleOkFrom 0 (progressOf (uRun c4UEnv)) = true ∧
     throttleOkFrom 0 (progressOf c4Evs) = true) :=
  ⟨rfl, C4_throttled c4UEnv c4MEnv c4Evs rfl⟩

/-- Claim C5: for a run with known positive duration every emitted percent
lies in `[0, 100]` (each loop emission is `min(100, secs/duration*100)`
with nonnegative `secs`), and the emitted sequence is non-decreasing,
including the terminal 100 on exit code 0. -/
theorem C5_range_mono (env : RunEnv) (d : ℚ) (h1 : env.duration = some d)
    (h2 : 0 < d) :
    inRange (progressOf (uRun env)) = true ∧
    monoFrom 0 (progressOf (uRun env)) = true := by
  obtain ⟨hm, hr⟩ :=
    uLoop_mono_range h2 env.cancelFrom env.lines 0 (0 : ℚ) le_rfl (by norm_num)
  rw [← h1] at hm hr
  rcases progressOf_uRun env with h0 | h0 | h0 <;> rw [h0]
  · exact ⟨rfl, rfl⟩
  · exact ⟨hr, hm⟩
  · constructor
    · rw [inRange_append, hr]
      rfl
    · exact monoFrom_append100 _ 0 (by norm_num) hm hr

def c5Env : RunEnv :=
  { duration := some 10, spawn := SpawnResult.ok, lines := [lineAt5],
    cancelFrom := none, streamExn := false, rc := 0, output := "e.mp4" }

theorem C5_range_mono_witness :
    c5Env.duration = some 10 ∧ (0 : ℚ) < 10 ∧
    (inRange (progressOf (uRun c5Env)) = true ∧
     monoFrom 0 (progressOf (uRun c5Env)) = true) :=
  ⟨rfl, by norm_num, C5_range_mono c5Env 10 rfl (by norm_num)⟩

def c6CexEnv : RunEnv :=
  { duration := some 10, spawn := SpawnResult.failed, lines := [],
    cancelFrom := none, streamExn := false, rc := 1, output := "c.mp4" }

/-- Claim C6, counterexample.  The claim says every exception while
starting or managing the process is caught inside the worker, in all
variants; but `mkv_to_mp4_gui.ConvertWorker.run` catches only
`FileNotFoundError` at `Popen` (line 82), so a generic spawn exception
(for example a `PermissionError`) escapes `run` — no `finished` signal is
emitted and the exception leaves the worker boundary. -/
theorem C6_exception_counterexample : mkvRun c6CexEnv = Except.error () := rfl

/-- Claim C6, amended: the universal and avi workers catch every exception
path and always emit a `finished` outcome; the mkv worker does so only
when the spawn does not raise a non-`FileNotFoundError` exception and no
exception is raised while streaming or waiting (its loop and `wait` are
outside any `try`). -/
theorem C6_exception_amended (env envA envM : RunEnv)
    (h1 : envM.spawn ≠ SpawnResult.failed) (h2 : envM.streamExn = false) :
    (finishedOf (uRun env)).isSome = true ∧
    (finishedOf (aviRun envA)).isSome = true ∧
    (finishedE (mkvRun envM)).isSome = true :=
  ⟨uRun_finished_isSome env, aviRun_finished_isSome envA,
   mkvRun_finished_isSome envM h1 h2⟩

def c6WitEnv : RunEnv :=
  { duration := none, spawn := SpawnResult.failed, lines := [],
    cancelFrom := none, streamExn := false, rc := 1, output := "d.mp4" }

def c6WitEnvM : RunEnv :=
  { duration := none, spawn := SpawnResult.notFound, lines := [],
    cancelFrom := none, streamExn := false, rc := 1, output := "d.mp4" }

theorem C6_exception_witness :
    c6WitEnvM.spawn ≠ SpawnResult.failed ∧ c6WitEnvM.streamExn = false ∧
    ((finishedOf (uRun c6WitEnv)).isSome = true ∧
     (finishedOf (aviRun c6WitEnv)).isSome = true ∧
     (finishedE (mkvRun c6WitEnvM)).isSome = true) :=
  ⟨by decide, rfl, C6_exception_amended c6WitEnv c6WitEnv c6WitEnvM (by decide) rfl⟩

/-- Claim C10: with an absent or zero probe result the truthiness guards
(`if m and duration` in the universal and mkv loops, `if duration and
duration > 0` in the avi loop) skip the percent computation entirely, so no
division by an absent or zero duration happens and the loop emits no
progress event; the lines are still forwarded as log events to completion
and the terminal outcome is the normal one, with the single 100 progress
event exactly on exit code 0. -/
theorem C10_unknown_duration (env envA envM : RunEnv)
    (hd : env.duration = none ∨ env.duration = some 0)
    (hs : env.spawn = SpawnResult.ok) (hc : env.cancelFrom = none)
    (he : env.streamExn = false)
    (hdA : envA.duration = none ∨ envA.duration = some 0)
    (hdM : envM.duration = none ∨ envM.duration = some 0)
    (i j : ℕ) (lastA lastM : ℚ) :
    uRun env = uPre env ++ logEvents env.lines ++
      (if env.rc = 0 then [Event.progress 100, Event.finished true env.output]
       else [Event.log "ffmpeg exited with code <rc>", Event.finished false ""]) ∧
    aviLoop none envA.duration envA.lines i lastA = ⟨logEvents envA.lines, false⟩ ∧
    mkvLoop none envM.duration envM.lines j lastM = ⟨logEvents envM.lines, false⟩ := by
  refine ⟨?_, aviLoop_nodur hdA envA.lines i lastA, mkvLoop_nodur hdM envM.lines j lastM⟩
  have hl := uLoop_nodur hd env.lines 0 0
  rw [← hc] at hl
  simp only [uRun, hs, hl, he, Bool.false_eq_true, if_false, List.append_assoc]
  split <;> rfl

def c10Env : RunEnv :=
  { duration := none, spawn := SpawnResult.ok, lines := [lineAt5],
    cancelFrom := none, streamExn := false, rc := 0, output := "f.mp4" }

def c2CexState : AppState :=
  { items := [("a.mkv", ⟨Status.queued, 0, false⟩), ("b.mkv", ⟨Status.queued, 0, false⟩)],
    capacity := 1, active := 0, pending := 0, watched := [], watcherPaths := [] }

/-- Claim C2, counterexample.  The claim says the number of jobs in the
Running state never exceeds the configured pool capacity, including right
after "start all".  But `_start_conversion` sets `meta["status"] =
"running"` before handing the runnable to the pool, for every eligible
job: starting two queued jobs with capacity 1 leaves two entries with
status `"running"` while the pool executes only one. -/
theorem C2_capacity_counterexample :
    c2CexState.capacity = 1 ∧ runningCount (startAll c2CexState) = 2 ∧
    (startAll c2CexState).active = 1 ∧ (startAll c2CexState).pending = 1 := by
  refine ⟨rfl, ?_, ?_, ?_⟩ <;> decide

/-- Claim C2, amended: what the code bounds by the capacity is the number
of runnables the thread pool actually executes, not the `"running"` status
count — `QThreadPool.start` queues the excess internally, so "start all"
never pushes the active count above the capacity (which it leaves
unchanged). -/
theorem C2_capacity_amended (st : AppState) (h : st.active ≤ st.capacity) :
    (startAll st).active ≤ (startAll st).capacity ∧
    (startAll st).capacity = st.capacity := by
  unfold startAll
  exact foldl_startConversion_inv (eligible st) st h

def c2WitState : AppState :=
  { items := [("a.mkv", ⟨Status.queued, 0, false⟩), ("b.mkv", ⟨Status.failed, 40, false⟩),
              ("c.mkv", ⟨Status.queued, 0, false⟩)],
    capacity := 2, active := 0, pending := 0, watched := [], watcherPaths := [] }

theorem C2_capacity_witness :
    c2WitState.active ≤ c2WitState.capacity ∧
    ((startAll c2WitState).active ≤ (startAll c2WitState).capacity ∧
     (startAll c2WitState).capacity = c2WitState.capacity) :=
  ⟨by decide, C2_capacity_amended c2WitState (by decide)⟩

/-- Claim C3: enqueueing is idempotent and filtered.  A path with a
disallowed extension leaves the registry unchanged; enqueueing the same
raw path twice equals enqueueing it once; and for any two allowed paths
with the same normalized key the second enqueue is a no-op — in every case
no error is raised (the operation is a total function) and at most one Job
per normalized path exists. -/
theorem C3_enqueue_idempotent (norm : String → String) (st : AppState)
    (p q : String) :
    (extAllowed p = false → addFile norm st p = st) ∧
    addFile norm (addFile norm st p) p = addFile norm st p ∧
    (extAllowed p = true → extAllowed q = true → norm q = norm p →
      addFile norm (addFile norm st p) q = addFile norm st p) := by
  refine ⟨fun h => by simp [addFile, h], ?_, ?_⟩
  · by_cases hp : extAllowed p = true
    · simp only [addFile, hp, if_true]
      cases hl : lookupJob st.items (norm p) with
      | some m => simp [addFile, hp, hl]
      | none =>
          have hfound :
              lookupJob (st.items ++ [(norm p, ⟨Status.queued, 0, false⟩)]) (norm p) =
                some ⟨Status.queued, 0, false⟩ := by
            rw [lookupJob_append_of_none hl]
            simp [lookupJob]
          simp [addFile, hp, hfound]
    · simp only [Bool.not_eq_true] at hp
      simp [addFile, hp]
  · intro hp hq hnorm
    simp only [addFile, hp, hq, if_true, hnorm]
    cases hl : lookupJob st.items (norm p) with
    | some m => simp [hl]
    | none =>
        have hfound :
            lookupJob (st.items ++ [(norm p, ⟨Status.queued, 0, false⟩)]) (norm p) =
              some ⟨Status.queued, 0, false⟩ := by
          rw [lookupJob_append_of_none hl]
          simp [lookupJob]
        simp [hl, hfound]

def c3State : AppState :=
  { items := [], capacity := 2, active := 0, pending := 0,
    watched := [], watcherPaths := [] }

theorem C3_enqueue_idempotent_witness :
    extAllowed "/v/A.MKV" = true ∧ extAllowed "/v/notes.txt" = false ∧
    addFile id c3State "/v/notes.txt" = c3State ∧
    addFile id (addFile id c3State "/v/A.MKV") "/v/A.MKV" =
      addFile id c3State "/v/A.MKV" ∧
    addFile id (addFile id c3State "/v/A.MKV") "/v/A.MKV" =
      addFile id c3State "/v/A.MKV" :=
  ⟨by decide, by decide,
   (C3_enqueue_idempotent id c3State "/v/notes.txt" "/v/notes.txt").1 (by decide),
   (C3_enqueue_idempotent id c3State "/v/A.MKV" "/v/A.MKV").2.1,
   (C3_enqueue_idempotent id c3State "/v/A.MKV" "/v/A.MKV").2.2
     (by decide) (by decide) rfl⟩

def c7CexState : AppState :=
  { items := [], capacity := 1, active := 0, pending := 0,
    watched := ["/movies"], watcherPaths := ["/movies"] }

/-- Claim C7, counterexample.  The claim says disabling watch detaches
notification delivery but leaves the set of tracked directory paths
unchanged.  In every variant the disable branch ends with
`self.watched.clear()`: from a state tracking `/movies`, toggling watch
off leaves an empty tracked set, so membership is lost, not retained. -/
theorem C7_watch_counterexample :
    c7CexState.watched = ["/movies"] ∧ (toggleWatch c7CexState 0).watched = [] := by
  exact ⟨rfl, rfl⟩

/-- Claim C7, amended: disabling watch both detaches the watcher paths and
clears the tracked set; any non-zero checkbox state is a no-op in the
universal variant, and in the avi variant — the only one whose enable
branch tries to re-register the tracked folders — re-enabling after a
disable changes nothing, because the tracked set is already empty. -/
theorem C7_watch_amended (st : AppState) (ex : String → Bool) (s : ℕ)
    (hs : s ≠ 0) :
    (toggleWatch st 0).watched = [] ∧
    (toggleWatch st 0).watcherPaths =
      st.watcherPaths.filter (fun q => ¬ st.watched.contains q) ∧
    toggleWatch st s = st ∧
    aviUpdateWatch ex (aviUpdateWatch ex st false) true =
      aviUpdateWatch ex st false := by
  refine ⟨by simp [toggleWatch], by simp [toggleWatch], by simp [toggleWatch, hs], ?_⟩
  simp [aviUpdateWatch]

theorem C7_watch_witness :
    (2 : ℕ) ≠ 0 ∧
    ((toggleWatch c7CexState 0).watched = [] ∧
     (toggleWatch c7CexState 0).watcherPaths =
       c7CexState.watcherPaths.filter (fun q => ¬ c7CexState.watched.contains q) ∧
     toggleWatch c7CexState 2 = c7CexState ∧
     aviUpdateWatch (fun _ => true) (aviUpdateWatch (fun _ => true) c7CexState false) true =
       aviUpdateWatch (fun _ => true) c7CexState false) :=
  ⟨by decide, C7_watch_amended c7CexState (fun _ => true) 2 (by decide)⟩

def c8CexState : AppState :=
  { items := [("a.mkv", ⟨Status.done, 100, false⟩)], capacity := 1, active := 0,
    pending := 0, watched := [], watcherPaths := [] }

/-- Claim C8, counterexample.  The claim says the per-item cancel action
removes a job only in the Queued state, and that Done and Failed jobs stay
in the registry.  The code guards `_cancel_item` on worker presence, not
on the status: a Done job has `worker = None`, so clicking cancel on it
pops it from the registry. -/
theorem C8_remove_counterexample :
    lookupJob c8CexState.items "a.mkv" = some ⟨Status.done, 100, false⟩ ∧
    lookupJob (cancelItem c8CexState "a.mkv").items "a.mkv" = none := by
  exact ⟨rfl, rfl⟩

/-- Claim C8, amended: the per-item cancel action removes the job exactly
when its entry has no active worker — Queued, Done and Failed entries
alike are removed, while an entry with a live worker is left in the
registry (only its kill flag is set). -/
theorem C8_remove_amended (st : AppState) (p : String) (m : JobMeta)
    (h : lookupJob st.items p = some m) :
    (m.hasWorker = true → cancelItem st p = st) ∧
    (m.hasWorker = false → lookupJob (cancelItem st p).items p = none) := by
  constructor
  · intro hw
    simp [cancelItem, h, hw]
  · intro hw
    simp only [cancelItem, h, hw, Bool.false_eq_true, if_false, removeItem]
    exact lookupJob_removeJob st.items p

def c8WitState : AppState :=
  { items := [("b.mkv", ⟨Status.queued, 0, false⟩)], capacity := 1, active := 0,
    pending := 0, watched := [], watcherPaths := [] }

theorem C8_remove_witness :
    lookupJob c8WitState.items "b.mkv" = some ⟨Status.queued, 0, false⟩ ∧
    lookupJob (cancelItem c8WitState "b.mkv").items "b.mkv" = none :=
  ⟨rfl, (C8_remove_amended c8WitState "b.mkv" ⟨Status.queued, 0, false⟩ rfl).2 rfl⟩

/-- Claim C9: on a non-empty snapshot the reported overall percent is the
equal-weight mean of the per-job recorded values, which under the
registry's conventions (a Queued job's bar is still 0, a Done job's bar
was set to 100 by `set_done`, Running and Failed jobs keep their last
recorded value) is exactly the spec's Queued = 0 / Done = 100 / last-value
mean. -/
theorem C9_overall_mean (st : AppState) (hne : st.items ≠ [])
    (hq : ∀ pm ∈ st.items, pm.2.status = Status.queued → pm.2.widgetValue = 0)
    (hd : ∀ pm ∈ st.items, pm.2.status = Status.done → pm.2.widgetValue = 100) :
    refreshOverall st =
      ((st.items.map (fun pm => conventionValue pm.2)).sum) / (st.items.length : ℚ) := by
  have hlen : ¬ st.items.length = 0 := by
    simpa [List.length_eq_zero] using hne
  unfold refreshOverall
  rw [if_neg hlen]
  have hmap : st.items.map (fun pm => ((pm.2.widgetValue : ℚ))) =
      st.items.map (fun pm => conventionValue pm.2) := by
    apply List.map_congr_left
    intro pm hpm
    cases hst : pm.2.status with
    | queued => simp [conventionValue, hst, hq pm hpm hst]
    | done => simp [conventionValue, hst, hd pm hpm hst]
    | running => simp [conventionValue, hst]
    | failed => simp [conventionValue, hst]
  rw [hmap]

def c9State : AppState :=
  { items := [("a.mkv", ⟨Status.queued, 0, false⟩), ("b.mkv", ⟨Status.done, 100, false⟩),
              ("c.mkv", ⟨Status.running, 40, true⟩), ("d.mkv", ⟨Status.failed, 10, false⟩)],
    capacity := 2, active := 1, pending := 0, watched := [], watcherPaths := [] }

theorem C9_overall_mean_witness :
    c9State.items ≠ [] ∧
    refreshOverall c9State =
      ((c9State.items.map (fun pm => conventionValue pm.2)).sum) /
        (c9State.items.length : ℚ) ∧
    refreshOverall c9State = 75 / 2 :=
  ⟨by decide,
   C9_overall_mean c9State (by decide)
     (by intro pm hpm h; fin_cases hpm <;> simp_all)
     (by intro pm hpm h; fin_cases hpm <;> simp_all),
   by norm_num [refreshOverall, c9State]⟩

theorem C10_unknown_duration_witness :
    c10Env.duration = none ∧ c10Env.spawn = SpawnResult.ok ∧
    c10Env.cancelFrom = none ∧ c10Env.streamExn = false ∧
    (uRun c10Env = uPre c10Env ++ logEvents c10Env.lines ++
        (if c10Env.rc = 0
         then [Event.progress 100, Event.finished true c10Env.output]
         else [Event.log "ffmpeg exited with code <rc>", Event.finished false ""]) ∧
     aviLoop none c10Env.duration c10Env.lines 0 0 = ⟨logEvents c10Env.lines, false⟩ ∧
     mkvLoop none c10Env.duration c10Env.lines 0 0 = ⟨logEvents c10Env.lines, false⟩) :=
  ⟨rfl, rfl, rfl, rfl,
   C10_unknown_duration c10Env c10Env c10Env (Or.inl rfl) rfl rfl rfl
     (Or.inl rfl) (Or.inl rfl) 0 0 0 0⟩

end Conv
